import Mathlib

/-!
Verification of the asynchronous grading pipeline of this repository.

The client live-channel manager is `FE/src/hooks/use-websocket.ts`: a
module-level singleton WebSocket shared by every `useWebSocket` hook
instance, with exponential reconnect backoff, heartbeat, and fan-out of
parsed messages to registered listeners.  The polling fallback lives in
the `CropSubmission` page (src/unnamed/part_003) and the `Grading` page
(src/unnamed/part_004).  The backend job store and worker
(`apps.jobs.models.Job`, `manage.py run_job_worker`,
`grade_item_and_persist`) are not part of the shipped sources here, so
those two components are modelled from the specification text and marked
as such in their doc comments.

Sections:
1. JavaScript values and exception-aware callback delivery
   (`onmessage` / `notifyConnected` of use-websocket.ts).
2. The module-level state machine of use-websocket.ts.
3. The waiting behaviour of the CropSubmission and Grading pages.
4. The job store and grading-result store, modelled from the spec.
-/

namespace Wizzdomm

/-! ## 1. JavaScript values and callback delivery -/

/-- A JavaScript value as produced by `JSON.parse`.  The manager performs
no validation of the parsed value, so the embedding keeps the full shape. -/
inductive JsValue where
  | jsNull
  | jsBool (b : Bool)
  | jsNum (n : Int)
  | jsStr (s : String)
  | jsArr (elems : List JsValue)
  | jsObj (fields : List (String × JsValue))
  deriving Repr

/-- Outcome of running a piece of JavaScript: a value, or an exception
propagating out of it. -/
inductive JsOutcome (α : Type) where
  | value (a : α)
  | thrown
  deriving DecidableEq, Repr

/-- A callback registered in one of the module-level sets of
use-websocket.ts (`listeners`, line 23, or `subscribers`, line 25):
an identifier plus its behaviour — `throwsOn a` says whether invoking it
on argument `a` throws. -/
structure Callback (α : Type) where
  id : Nat
  throwsOn : α → Bool

/-- Invoking `fn(a)`: the invocation is recorded as the pair `(fn.id, a)`;
the call throws exactly when the callback's behaviour says so. -/
def callFn {α : Type} (cb : Callback α) (a : α) : List (Nat × α) × JsOutcome Unit :=
  ([(cb.id, a)], if cb.throwsOn a then JsOutcome.thrown else JsOutcome.value ())

/-- The statement `try { e } catch {}`: the trace of `e` is kept, a thrown
exception is swallowed. -/
def tryCatchIgnore {α : Type} (r : List (Nat × α) × JsOutcome Unit) :
    List (Nat × α) × JsOutcome Unit :=
  (r.1, JsOutcome.value ())

/-- JavaScript `forEach` semantics over callbacks: the body runs on each
element in order, and an exception escaping the body aborts the remaining
iterations and propagates. -/
def forEachJs {α : Type} (body : Callback α → List (Nat × α) × JsOutcome Unit) :
    List (Callback α) → List (Nat × α) × JsOutcome Unit
  | [] => ([], JsOutcome.value ())
  | cb :: rest =>
    match body cb with
    | (calls, JsOutcome.thrown) => (calls, JsOutcome.thrown)
    | (calls, JsOutcome.value _) =>
      match forEachJs body rest with
      | (more, out) => (calls ++ more, out)

/-- Line 49 of use-websocket.ts:
`listeners.forEach((fn) => { try { fn(data); } catch {} });` -/
def notifyListeners (ls : List (Callback JsValue)) (data : JsValue) :
    List (Nat × JsValue) × JsOutcome Unit :=
  forEachJs (fun fn => tryCatchIgnore (callFn fn data)) ls

/-- Line 29 of use-websocket.ts:
`subscribers.forEach((fn) => { try { fn(val); } catch {} });` -/
def notifySubscribers (subs : List (Callback Bool)) (val : Bool) :
    List (Nat × Bool) × JsOutcome Unit :=
  forEachJs (fun fn => tryCatchIgnore (callFn fn val)) subs

/-- The `ws.onmessage` handler (lines 46-51 of use-websocket.ts).
`JSON.parse` is a platform primitive, so its behaviour on a given frame is
an oracle argument; `parse raw = none` models a parse exception, which the
surrounding `try { ... } catch {}` swallows. -/
def onMessage (parse : String → Option JsValue) (ls : List (Callback JsValue))
    (raw : String) : List (Nat × JsValue) × JsOutcome Unit :=
  match parse raw with
  | none => tryCatchIgnore ([], JsOutcome.thrown)
  | some data => tryCatchIgnore (notifyListeners ls data)

/-! ## 2. The module-level state machine of use-websocket.ts -/

/-- The `WebSocket.readyState` constants. -/
inductive ReadyState where
  | CONNECTING
  | OPEN
  | CLOSING
  | CLOSED
  deriving DecidableEq, Repr

/-- The module-level mutable state of use-websocket.ts (lines 17-25).
`sockets` records the state of every WebSocket constructed so far, so that
the singleton property is expressible; `singletonWs` is the index of the
socket currently held by the module variable of the same name.
`closedByApp` is the module variable `closed` (never set to true anywhere
in the file).  `backoff` starts at 1000 ms. -/
structure WSState where
  sockets : List ReadyState
  singletonWs : Option Nat
  heartbeatTimer : Bool
  reconnectTimer : Option Nat
  closedByApp : Bool
  backoff : Nat
  subscribers : List Nat
  connectedFlag : Bool
  deriving DecidableEq, Repr

/-- Initial module state (lines 18-24). -/
def initWSState : WSState :=
  { sockets := [], singletonWs := none, heartbeatTimer := false,
    reconnectTimer := none, closedByApp := false, backoff := 1000,
    subscribers := [], connectedFlag := false }

/-- The readyState of the socket the module variable `singletonWs` points
at, if any. -/
def currentSocket (st : WSState) : Option ReadyState :=
  st.singletonWs.bind (fun i => st.sockets[i]?)

/-- A socket counts as live when `readyState === WebSocket.OPEN ||
readyState === WebSocket.CONNECTING` (the guard on line 33). -/
def isLive : ReadyState → Bool
  | ReadyState.CONNECTING => true
  | ReadyState.OPEN => true
  | _ => false

/-- The backoff update `Math.min(backoff * 2, 30000)` (lines 57 and 64). -/
def nextBackoff (b : Nat) : Nat := min (b * 2) 30000

/-- `ensureSocket` (lines 32-68): if the singleton socket is OPEN or
CONNECTING, do nothing; otherwise construct a new WebSocket and store it in
`singletonWs`.  `ctorOk = false` models the constructor throwing, which
takes the catch branch (lines 63-67): double the backoff and schedule a
reconnect after `next` milliseconds with no jitter. -/
def ensureSocket (ctorOk : Bool) (st : WSState) : WSState :=
  if (currentSocket st).any isLive then st
  else if ctorOk then
    { st with sockets := st.sockets ++ [ReadyState.CONNECTING],
              singletonWs := some st.sockets.length }
  else
    { st with backoff := nextBackoff st.backoff,
              reconnectTimer := some (nextBackoff st.backoff) }

/-- The `ws.onopen` handler (lines 39-45) firing on socket `i`:
`notifyConnected(true)` (which sets `connectedFlag`), reset `backoff` to
1000, and start the heartbeat interval. -/
def handleOpen (i : Nat) (st : WSState) : WSState :=
  { st with sockets := st.sockets.set i ReadyState.OPEN,
            connectedFlag := true,
            backoff := 1000,
            heartbeatTimer := true }

/-- The `ws.onclose` handler (lines 53-62) firing on socket `i` with the
drawn jitter `j = Math.floor(Math.random() * 500)`: `notifyConnected(false)`,
stop the heartbeat, and — unless `closed` — double the backoff and schedule
`ensureSocket` after `next + jitter` milliseconds. -/
def handleClose (i : Nat) (jitter : Nat) (st : WSState) : WSState :=
  if st.closedByApp then
    { st with sockets := st.sockets.set i ReadyState.CLOSED,
              connectedFlag := false,
              heartbeatTimer := false }
  else
    { st with sockets := st.sockets.set i ReadyState.CLOSED,
              connectedFlag := false,
              heartbeatTimer := false,
              backoff := nextBackoff st.backoff,
              reconnectTimer := some (nextBackoff st.backoff + jitter) }

/-- Mounting a `useWebSocket` hook instance (effect on lines 75-82):
add the connection-state subscriber, then call `ensureSocket()`. -/
def mountHook (hid : Nat) (ctorOk : Bool) (st : WSState) : WSState :=
  ensureSocket ctorOk { st with subscribers := st.subscribers ++ [hid] }

/-- Unmounting a hook instance: the cleanups on lines 81 and 93-98 run —
remove the subscriber, and `if (reconnectTimer) clearTimeout(reconnectTimer)`,
which cancels the module-global pending reconnect. -/
def unmountHook (hid : Nat) (st : WSState) : WSState :=
  { st with subscribers := st.subscribers.erase hid,
            reconnectTimer := none }

/-- The pending reconnect timeout fires (line 60): the pending timer has
elapsed, and `ensureSocket()` runs. -/
def fireReconnect (ctorOk : Bool) (st : WSState) : WSState :=
  ensureSocket ctorOk { st with reconnectTimer := none }

/-- External events driving the module state. -/
inductive WSEv where
  | mount (hid : Nat) (ctorOk : Bool)
  | unmount (hid : Nat)
  | sockOpen (i : Nat)
  | sockClose (i : Nat) (jitter : Nat)
  | reconnect (ctorOk : Bool)
  | message (raw : String)
  deriving DecidableEq, Repr

/-- Guarded step: `sockOpen i` needs socket `i` to be CONNECTING,
`sockClose i j` needs socket `i` not yet CLOSED and a jitter below 500
(the range of `Math.floor(Math.random() * 500)`), `reconnect` needs a
pending timer.  The `onmessage` handler (lines 46-51) touches no module
state. -/
def stepEv (st : WSState) : WSEv → Option WSState
  | WSEv.mount hid ctorOk => some (mountHook hid ctorOk st)
  | WSEv.unmount hid => some (unmountHook hid st)
  | WSEv.sockOpen i =>
    if st.sockets[i]? = some ReadyState.CONNECTING then some (handleOpen i st)
    else none
  | WSEv.sockClose i j =>
    if (st.sockets[i]?).any (fun s => s != ReadyState.CLOSED) = true ∧ j < 500 then
      some (handleClose i j st)
    else none
  | WSEv.reconnect ctorOk =>
    match st.reconnectTimer with
    | some _ => some (fireReconnect ctorOk st)
    | none => none
  | WSEv.message _ => some st

/-- Run a sequence of events from a state; `none` when an event's guard
fails somewhere along the way. -/
def runEvents : WSState → List WSEv → Option WSState
  | st, [] => some st
  | st, e :: es =>
    match stepEv st e with
    | some st1 => runEvents st1 es
    | none => none

/-- The sockets currently open or connecting. -/
def liveSockets (st : WSState) : List ReadyState := st.sockets.filter isLive

/-- Structural invariant of the module state: the module variable
`singletonWs` always refers to the most recently constructed socket, and
every older socket is no longer live. -/
def SingletonInv (st : WSState) : Prop :=
  (st.singletonWs = if st.sockets.length = 0 then none else some (st.sockets.length - 1)) ∧
  ∀ i, i + 1 < st.sockets.length → (st.sockets[i]?).any isLive = false

/-- Line 71 of use-websocket.ts, `useState<boolean>(connectedFlag)`:
the initial `connected` value of a hook instance that mounts now. -/
def hookInitialConnected (st : WSState) : Bool := st.connectedFlag

/-- `notifyConnected` (lines 27-30): line 28 assigns `connectedFlag = val`
first, then line 29 notifies every state subscriber with `val`.  The state
paired with the notifications therefore already carries the updated flag. -/
def notifyConnected (val : Bool) (subs : List (Callback Bool)) (st : WSState) :
    WSState × (List (Nat × Bool) × JsOutcome Unit) :=
  ({ st with connectedFlag := val }, notifySubscribers subs val)

/-! ## 3. Waiting behaviour of the CropSubmission and Grading pages -/

/-- The wire message shape declared in use-websocket.ts (lines 4-9). -/
structure WebSocketMessage where
  event : String
  job_id : Nat
  status : String
  deriving DecidableEq, Repr

/-- The per-question crop status of the CropSubmission page
(src/unnamed/part_003, line 12). -/
inductive CropStatus where
  | pendingQ
  | done
  | grading
  deriving DecidableEq, Repr

/-- The polling effect of CropSubmission (part_003 lines 72-81): an
interval calling `checkGradingStatus` every 5000 ms is installed exactly
while some question has status `grading`; the effect cleanup removes it
otherwise. -/
def cropPollInterval (questions : List CropStatus) : Option Nat :=
  if questions.any (fun q => q == CropStatus.grading) then some 5000 else none

/-- The status update inside `checkGradingStatus` (part_003 lines 42-53):
a question reported graded by the authoritative summary flips from
`grading` to `done`; others are unchanged. -/
def checkGradingStatus (gradedIds : List Nat) (qs : List (Nat × CropStatus)) :
    List (Nat × CropStatus) :=
  qs.map (fun q =>
    if gradedIds.contains q.1 ∧ q.2 = CropStatus.grading then (q.1, CropStatus.done)
    else q)

/-- Backend calls the Grading page can issue while waiting. -/
inductive FetchCall where
  | gradingSummary
  deriving DecidableEq, Repr

/-- The waiting state of the Grading page (src/unnamed/part_004):
`regrading` and `recentlyRegraded` (lines 35-37), and the cosmetic 1 s
timer counter `tick` (line 38). -/
structure GradingPageState where
  regrading : Bool
  recentlyRegraded : Bool
  tick : Nat
  deriving DecidableEq, Repr

/-- The `useWebSocket` handler of the Grading page (part_004 lines
108-119): on a succeeded submission-level grading event it clears
`regrading` and refetches the grading summary; on everything else it does
nothing. -/
def gradingOnWsMessage (msg : WebSocketMessage) (st : GradingPageState) :
    GradingPageState × List FetchCall :=
  if (msg.event = "GRADE_SUBMISSION" ∨ msg.event = "RE_GRADE_SUBMISSION" ∨
      msg.event = "REGRADE_SUBMISSION") ∧ msg.status = "succeeded" then
    ({ st with regrading := false, recentlyRegraded := true },
     [FetchCall.gradingSummary])
  else (st, [])

/-- The only interval the Grading page installs while `regrading` is the
1 s timer tick (part_004 lines 101-105), which increments `tick` and
fetches nothing. -/
def gradingOnTick (st : GradingPageState) : GradingPageState × List FetchCall :=
  ({ st with tick := st.tick + 1 }, [])

/-- Events reaching the Grading page while it waits on a regrade. -/
inductive GradingEv where
  | ws (msg : WebSocketMessage)
  | tick
  deriving DecidableEq, Repr

/-- One event step of the Grading page. -/
def gradingStep (st : GradingPageState) : GradingEv → GradingPageState × List FetchCall
  | GradingEv.ws msg => gradingOnWsMessage msg st
  | GradingEv.tick => gradingOnTick st

/-- Run a list of events through the Grading page, collecting every
backend fetch it issues. -/
def gradingRun : GradingPageState → List GradingEv → GradingPageState × List FetchCall
  | st, [] => (st, [])
  | st, e :: es =>
    match gradingStep st e with
    | (st1, calls) =>
      match gradingRun st1 es with
      | (st2, more) => (st2, calls ++ more)

/-- The Grading page right after `handleRegrade` succeeded (part_004
lines 151-154): `regrading` is set and the page is waiting. -/
def gradingWaitingInit : GradingPageState :=
  { regrading := true, recentlyRegraded := false, tick := 0 }

/-! ## 4. Job store and grading-result store, modelled from the spec

The backend (Django `apps.jobs` model, the `run_job_worker` command and
`grade_item_and_persist`) is referenced by the deployment notes and by the
frontend but its source is not shipped under src/, so the two contracts
the claims need are modelled from the specification text. -/

/-- Modelled from the spec: the Job status lifecycle
`{pending, running, succeeded, failed}` of §3, for the backend
`apps.jobs.models.Job` that is absent from src/. -/
inductive JobStatus where
  | pending
  | running
  | succeeded
  | failed
  deriving DecidableEq, Repr

/-- Modelled from the spec: a Job row (§3) of the absent backend job
store — opaque id, the submission item it concerns, its status and the
attempt counter. -/
structure Job where
  id : Nat
  itemId : Nat
  status : JobStatus
  attempts : Nat
  deriving DecidableEq, Repr

/-- Modelled from the spec: `claim_next` (§4.1) of the absent backend job
store — a single atomic conditional update `pending -> running` that
claims the oldest pending job (FIFO) and bumps its attempt counter;
returns `none` to a caller who finds no pending job. -/
def claimNext : List Job → Option Job × List Job
  | [] => (none, [])
  | j :: rest =>
    if j.status = JobStatus.pending then
      ((some { j with status := JobStatus.running, attempts := j.attempts + 1 }),
       { j with status := JobStatus.running, attempts := j.attempts + 1 } :: rest)
    else
      match claimNext rest with
      | (res, rest1) => (res, j :: rest1)

/-- Modelled from the spec: N workers racing on the store (§8).  Because
`claim_next` is a single atomic conditional update, a concurrent execution
of N calls is equivalent to the N calls in some serial order; this runs
them serially and collects what each caller observed. -/
def raceClaims : Nat → List Job → List (Option Job) × List Job
  | 0, jobs => ([], jobs)
  | n + 1, jobs =>
    ((claimNext jobs).1 :: (raceClaims n (claimNext jobs).2).1,
     (raceClaims n (claimNext jobs).2).2)

/-- Modelled from the spec: a GradingResult row (§3) of the absent
grading data model — keyed by submission-item identity, carrying the
verdict and the id of the job whose success produced it. -/
structure GradingRow where
  itemId : Nat
  isCorrect : Bool
  jobId : Nat
  deriving DecidableEq, Repr

/-- Modelled from the spec: the worker success path for GRADE_ITEM/REGRADE
jobs (§3, §4.2 step 4) — upsert (create-or-replace) the single
GradingResult row for the item: replace the row with the same item key if
one exists, insert otherwise. -/
def upsertRow (rows : List GradingRow) (r : GradingRow) : List GradingRow :=
  if rows.any (fun x => x.itemId == r.itemId) then
    rows.map (fun x => if x.itemId = r.itemId then r else x)
  else rows ++ [r]

/-- The GradingResult rows stored for one submission item. -/
def rowsFor (item : Nat) (rows : List GradingRow) : List GradingRow :=
  rows.filter (fun x => x.itemId == item)

/-- The unique constraint of §3: at most one GradingResult row per
submission item. -/
def UniqueKeys (rows : List GradingRow) : Prop :=
  ∀ item, (rowsFor item rows).length ≤ 1

/-- A store with no pending job: every claimer must come away empty. -/
def noPending (jobs : List Job) : Prop :=
  ∀ j ∈ jobs, j.status ≠ JobStatus.pending

/-! ### Concrete scenario states used by witnesses and counterexamples -/

/-- A module state whose singleton socket is open, as after one successful
connect. -/
def wsOpenState : WSState := handleOpen 0 (mountHook 0 true initWSState)

/-- Concrete run: a hook mounts, the socket opens, a second hook mounts. -/
def demoTwoHooks : List WSEv :=
  [WSEv.mount 0 true, WSEv.sockOpen 0, WSEv.mount 1 true]

/-- The scenario refuting claim C6: one hook mounts, the connection opens,
then drops (scheduling a reconnect), and the hook unmounts before the
timer fires. -/
def c6Trace : List WSEv :=
  [WSEv.mount 0 true, WSEv.sockOpen 0, WSEv.sockClose 0 0, WSEv.unmount 0]

/-- The state right after the drop in the C6 scenario: a reconnect is
pending. -/
def c6AfterDrop : WSState := handleClose 0 0 wsOpenState

/-- The state after the hook unmounts in the C6 scenario. -/
def c6AfterUnmount : WSState := unmountHook 0 c6AfterDrop

/-! ## Theorems -/

/-- A forEach whose body protects every call with `try ... catch {}`
invokes every callback in order with the same argument and lets no
exception escape, whatever the callbacks' throw behaviour. -/
theorem forEachJs_tryCatch {α : Type} (a : α) (ls : List (Callback α)) :
    forEachJs (fun fn => tryCatchIgnore (callFn fn a)) ls =
      (ls.map (fun cb => (cb.id, a)), JsOutcome.value ()) := by
  induction ls with
  | nil => rfl
  | cons cb rest ih =>
    have hcons : forEachJs (fun fn => tryCatchIgnore (callFn fn a)) (cb :: rest) =
        ((cb.id, a) :: (forEachJs (fun fn => tryCatchIgnore (callFn fn a)) rest).1,
         (forEachJs (fun fn => tryCatchIgnore (callFn fn a)) rest).2) := rfl
    rw [hcons, ih]
    rfl

/-- C7: every successfully parsed inbound event is delivered to each
registered listener, and a listener callback that throws does not prevent
delivery of the same event to any other registered listener; the same
isolation holds for connection-state notifications to subscribers. -/
theorem fanout_isolation (ls : List (Callback JsValue)) (data : JsValue)
    (subs : List (Callback Bool)) (val : Bool) :
    notifyListeners ls data =
      (ls.map (fun cb => (cb.id, data)), JsOutcome.value ()) ∧
    notifySubscribers subs val =
      (subs.map (fun cb => (cb.id, val)), JsOutcome.value ()) :=
  ⟨forEachJs_tryCatch data ls, forEachJs_tryCatch val subs⟩

/-- C8: an inbound message whose payload fails to parse as JSON is dropped
silently — no listener is invoked, no exception escapes the handler, and
the module connection state is unchanged. -/
theorem malformed_message_dropped (parse : String → Option JsValue)
    (ls : List (Callback JsValue)) (raw : String) (st : WSState)
    (h : parse raw = none) :
    onMessage parse ls raw = ([], JsOutcome.value ()) ∧
    stepEv st (WSEv.message raw) = some st := by
  refine ⟨?_, rfl⟩
  simp [onMessage, h, tryCatchIgnore]

/-- Witness for `malformed_message_dropped` at a concrete unparseable
frame. -/
theorem malformed_message_dropped_witness :
    onMessage (fun _ => none) [Callback.mk 3 (fun _ => false)] "bad frame" =
      ([], JsOutcome.value ()) ∧
    stepEv initWSState (WSEv.message "bad frame") = some initWSState :=
  malformed_message_dropped (fun _ => none) [Callback.mk 3 (fun _ => false)]
    "bad frame" initWSState rfl

/-- C10: every frame that parses as JSON — whatever its shape, including
heartbeat echoes or objects missing the declared WebSocketMessage fields —
is forwarded unmodified to every registered listener; no validation beyond
the parse happens. -/
theorem parsed_frame_forwarded_unvalidated (parse : String → Option JsValue)
    (ls : List (Callback JsValue)) (raw : String) (j : JsValue)
    (h : parse raw = some j) :
    onMessage parse ls raw =
      (ls.map (fun cb => (cb.id, j)), JsOutcome.value ()) := by
  simp only [onMessage, h]
  rw [notifyListeners, forEachJs_tryCatch]
  rfl

/-- Witness for `parsed_frame_forwarded_unvalidated`: a heartbeat-style
echo with none of the WebSocketMessage fields is handed to the listener
as-is. -/
theorem parsed_frame_forwarded_unvalidated_witness :
    onMessage (fun _ => some (JsValue.jsObj [("type", JsValue.jsStr "ping")]))
      [Callback.mk 7 (fun _ => true)] "ping frame" =
      ([(7, JsValue.jsObj [("type", JsValue.jsStr "ping")])], JsOutcome.value ()) :=
  parsed_frame_forwarded_unvalidated
    (fun _ => some (JsValue.jsObj [("type", JsValue.jsStr "ping")]))
    [Callback.mk 7 (fun _ => true)] "ping frame"
    (JsValue.jsObj [("type", JsValue.jsStr "ping")]) rfl

/-- Doubling the backoff k times from the 1000 ms floor tracks
`min (2 ^ k * 1000) 30000`. -/
theorem nextBackoff_iterate (k : Nat) :
    Nat.iterate nextBackoff k 1000 = min (2 ^ k * 1000) 30000 := by
  induction k with
  | zero => norm_num [Nat.iterate]
  | succ n ih =>
    rw [Function.iterate_succ_apply', ih, nextBackoff]
    have h2 : 2 ^ (n + 1) * 1000 = 2 ^ n * 1000 * 2 := by ring
    rw [h2]
    generalize 2 ^ n * 1000 = a
    omega

/-- C4: the reconnect backoff is exponential with reset — each close of a
not-shut-down channel doubles the stored backoff capped at 30000 ms (so k
consecutive failures give `min (2 ^ k * 1000) 30000`), the scheduled sleep
is that value plus the jitter below 500 ms, and a successful open resets
the backoff to the 1000 ms floor.  The constructor-throw path (the catch
branch) also doubles the backoff, scheduling with zero jitter. -/
theorem reconnect_backoff_policy :
    (∀ k, Nat.iterate nextBackoff k 1000 = min (2 ^ k * 1000) 30000) ∧
    (∀ st st1 i j, stepEv st (WSEv.sockClose i j) = some st1 →
        st.closedByApp = false →
        st1.backoff = min (st.backoff * 2) 30000 ∧
        st1.reconnectTimer = some (min (st.backoff * 2) 30000 + j) ∧ j < 500) ∧
    (∀ st st1 i, stepEv st (WSEv.sockOpen i) = some st1 → st1.backoff = 1000) ∧
    (∀ st, (currentSocket st).any isLive = false →
        (ensureSocket false st).backoff = min (st.backoff * 2) 30000 ∧
        (ensureSocket false st).reconnectTimer = some (min (st.backoff * 2) 30000)) := by
  refine ⟨nextBackoff_iterate, ?_, ?_, ?_⟩
  · intro st st1 i j h hcl
    simp only [stepEv] at h
    split_ifs at h with hc
    · cases h
      refine ⟨?_, ?_, hc.2⟩
      · simp [handleClose, hcl, nextBackoff]
      · simp [handleClose, hcl, nextBackoff]
  · intro st st1 i h
    simp only [stepEv] at h
    split_ifs at h with hc
    · cases h
      rfl
  · intro st hdead
    rw [ensureSocket, hdead]
    exact ⟨by simp [nextBackoff], by simp [nextBackoff]⟩

/-- Witness for `reconnect_backoff_policy`: a close of the open singleton
with jitter 250 doubles the 1000 ms backoff to 2000 and schedules the
reconnect at 2250 ms. -/
theorem reconnect_backoff_policy_witness :
    stepEv wsOpenState (WSEv.sockClose 0 250) = some (handleClose 0 250 wsOpenState) ∧
    ((handleClose 0 250 wsOpenState).backoff = min (wsOpenState.backoff * 2) 30000 ∧
     (handleClose 0 250 wsOpenState).reconnectTimer =
       some (min (wsOpenState.backoff * 2) 30000 + 250) ∧ 250 < 500) :=
  ⟨by decide,
   reconnect_backoff_policy.2.1 wsOpenState (handleClose 0 250 wsOpenState) 0 250
     (by decide) (by decide)⟩

/-- C6 is refuted by the code: after a drop schedules a reconnect, the
hook instance unmounting runs the cleanup of lines 93-98, which clears the
module-global reconnect timer — no reconnect is pending afterwards, the
reconnect timeout can never fire, and the channel stays disconnected even
though shutdown (`closed`) was never initiated. -/
theorem unmount_cancels_pending_reconnect :
    runEvents initWSState c6Trace = some c6AfterUnmount ∧
    c6AfterDrop.reconnectTimer = some 2000 ∧
    c6AfterUnmount.reconnectTimer = none ∧
    c6AfterUnmount.closedByApp = false ∧
    c6AfterUnmount.connectedFlag = false ∧
    liveSockets c6AfterUnmount = [] ∧
    stepEv c6AfterUnmount (WSEv.reconnect true) = none := by
  decide

/-- Mounting a hook never changes the module connectedFlag: the added
subscriber and `ensureSocket()` leave it alone on every branch. -/
theorem mountHook_connectedFlag (hid : Nat) (ctorOk : Bool) (st : WSState) :
    (mountHook hid ctorOk st).connectedFlag = st.connectedFlag := by
  unfold mountHook ensureSocket
  split_ifs <;> rfl

/-- C9: a hook instance mounting while the shared connection is
established reports connected immediately — its initial state reads the
module-level connectedFlag, which notifyConnected updates before invoking
any state subscriber, and which the open handler set to true. -/
theorem late_subscriber_initial_connected :
    (∀ st st1 i, stepEv st (WSEv.sockOpen i) = some st1 →
        ∀ hid ctorOk, hookInitialConnected (mountHook hid ctorOk st1) = true) ∧
    (∀ val subs st,
        ((notifyConnected val subs st).1).connectedFlag = val ∧
        (notifyConnected val subs st).2 =
          (subs.map (fun cb => (cb.id, val)), JsOutcome.value ())) ∧
    (∀ st hid ctorOk,
        hookInitialConnected (mountHook hid ctorOk st) = hookInitialConnected st) := by
  refine ⟨?_, ?_, ?_⟩
  · intro st st1 i h hid ctorOk
    simp only [stepEv] at h
    split_ifs at h with hc
    · cases h
      rw [hookInitialConnected, mountHook_connectedFlag]
      rfl
  · intro val subs st
    exact ⟨rfl, forEachJs_tryCatch val subs⟩
  · intro st hid ctorOk
    exact mountHook_connectedFlag hid ctorOk st

/-- Witness for `late_subscriber_initial_connected`: after the first
hook's socket opens, a second hook mounting starts out connected. -/
theorem late_subscriber_initial_connected_witness :
    stepEv (mountHook 0 true initWSState) (WSEv.sockOpen 0) = some wsOpenState ∧
    hookInitialConnected (mountHook 1 true wsOpenState) = true :=
  ⟨by decide,
   late_subscriber_initial_connected.1 (mountHook 0 true initWSState) wsOpenState 0
     (by decide) 1 true⟩

/-- A tick-only trace through the Grading page changes nothing but the
cosmetic timer counter and issues no backend fetch. -/
theorem gradingRun_ticks (n : Nat) (st : GradingPageState) :
    (gradingRun st (List.replicate n GradingEv.tick)).1.regrading = st.regrading ∧
    (gradingRun st (List.replicate n GradingEv.tick)).2 = [] := by
  induction n generalizing st with
  | zero => exact ⟨rfl, rfl⟩
  | succ m ih =>
    rw [List.replicate_succ]
    have hcons : gradingRun st (GradingEv.tick :: List.replicate m GradingEv.tick) =
        gradingRun { st with tick := st.tick + 1 } (List.replicate m GradingEv.tick) := rfl
    rw [hcons]
    exact ih { st with tick := st.tick + 1 }

/-- C3 is refuted by the code: the CropSubmission page does install the
5000 ms polling interval exactly while a question is grading, but the
Grading page waits on a regrade with no polling at all — under a tick-only
trace (no CompletionEvent ever delivered) it issues no fetch of the
authoritative state and stays in the regrading state forever. -/
theorem grading_page_never_polls :
    (∀ n : Nat,
      (gradingRun gradingWaitingInit (List.replicate n GradingEv.tick)).1.regrading = true ∧
      (gradingRun gradingWaitingInit (List.replicate n GradingEv.tick)).2 = []) ∧
    cropPollInterval [CropStatus.grading] = some 5000 ∧
    cropPollInterval [CropStatus.done, CropStatus.pendingQ] = none := by
  exact ⟨fun n => gradingRun_ticks n gradingWaitingInit, rfl, rfl⟩

/-- The invariant holds in the initial module state. -/
theorem singletonInv_init : SingletonInv initWSState :=
  ⟨rfl, fun i h => by simp [initWSState] at h⟩

/-- ensureSocket preserves the singleton invariant: it constructs a new
socket only when the current one is not live. -/
theorem singletonInv_ensureSocket (ctorOk : Bool) (st : WSState)
    (h : SingletonInv st) : SingletonInv (ensureSocket ctorOk st) := by
  obtain ⟨h1, h2⟩ := h
  unfold ensureSocket
  split_ifs with hlive hok
  · exact ⟨h1, h2⟩
  · constructor
    · show some st.sockets.length =
        if (st.sockets ++ [ReadyState.CONNECTING]).length = 0 then none
        else some ((st.sockets ++ [ReadyState.CONNECTING]).length - 1)
      simp
    · show ∀ i, i + 1 < (st.sockets ++ [ReadyState.CONNECTING]).length →
        ((st.sockets ++ [ReadyState.CONNECTING])[i]?).any isLive = false
      intro i hi
      simp only [List.length_append, List.length_cons, List.length_nil] at hi
      have hilt : i < st.sockets.length := by omega
      rw [List.getElem?_append_left hilt]
      rcases Nat.lt_or_ge (i + 1) st.sockets.length with hlt | hge
      · exact h2 i hlt
      · have hlen : ¬st.sockets.length = 0 := by omega
        have hi_eq : st.sockets.length - 1 = i := by omega
        have hcur : currentSocket st = st.sockets[i]? := by
          rw [currentSocket, h1, if_neg hlen]
          simp [hi_eq]
        rw [← hcur]
        simpa using hlive
  · exact ⟨h1, h2⟩

/-- Setting a socket's state to CLOSED keeps all non-final entries of the
socket list non-live. -/
theorem sockets_set_closed_inv (i : Nat) (l : List ReadyState)
    (h2 : ∀ k, k + 1 < l.length → (l[k]?).any isLive = false) :
    ∀ k, k + 1 < (l.set i ReadyState.CLOSED).length →
      ((l.set i ReadyState.CLOSED)[k]?).any isLive = false := by
  intro k hk
  rw [List.length_set] at hk
  by_cases hik : i = k
  · subst hik
    rw [List.getElem?_set_eq_of_lt ReadyState.CLOSED (by omega)]
    rfl
  · rw [List.getElem?_set_ne hik]
    exact h2 k hk

/-- The open handler preserves the singleton invariant: only the (last,
CONNECTING) socket can fire onopen. -/
theorem singletonInv_handleOpen (i : Nat) (st : WSState)
    (hget : st.sockets[i]? = some ReadyState.CONNECTING)
    (h : SingletonInv st) : SingletonInv (handleOpen i st) := by
  obtain ⟨h1, h2⟩ := h
  constructor
  · show st.singletonWs =
      if (st.sockets.set i ReadyState.OPEN).length = 0 then none
      else some ((st.sockets.set i ReadyState.OPEN).length - 1)
    simpa using h1
  · show ∀ k, k + 1 < (st.sockets.set i ReadyState.OPEN).length →
      ((st.sockets.set i ReadyState.OPEN)[k]?).any isLive = false
    intro k hk
    rw [List.length_set] at hk
    by_cases hik : i = k
    · subst hik
      have hdead := h2 i hk
      rw [hget] at hdead
      simp [isLive] at hdead
    · rw [List.getElem?_set_ne hik]
      exact h2 k hk

/-- The close handler preserves the singleton invariant. -/
theorem singletonInv_handleClose (i j : Nat) (st : WSState)
    (h : SingletonInv st) : SingletonInv (handleClose i j st) := by
  obtain ⟨h1, h2⟩ := h
  unfold handleClose
  split_ifs with hcl
  · exact ⟨by simpa using h1, sockets_set_closed_inv i st.sockets h2⟩
  · exact ⟨by simpa using h1, sockets_set_closed_inv i st.sockets h2⟩

/-- Every event step preserves the singleton invariant. -/
theorem singletonInv_step (st st1 : WSState) (e : WSEv) (h : SingletonInv st)
    (hs : stepEv st e = some st1) : SingletonInv st1 := by
  cases e with
  | mount hid ctorOk =>
    cases hs
    exact singletonInv_ensureSocket ctorOk _ ⟨h.1, h.2⟩
  | unmount hid =>
    cases hs
    exact ⟨h.1, h.2⟩
  | sockOpen i =>
    simp only [stepEv] at hs
    split_ifs at hs with hc
    cases hs
    exact singletonInv_handleOpen i st hc h
  | sockClose i j =>
    simp only [stepEv] at hs
    split_ifs at hs with hc
    cases hs
    exact singletonInv_handleClose i j st h
  | reconnect ctorOk =>
    simp only [stepEv] at hs
    cases htimer : st.reconnectTimer with
    | none => rw [htimer] at hs; exact Option.noConfusion hs
    | some d =>
      rw [htimer] at hs
      cases hs
      exact singletonInv_ensureSocket ctorOk _ ⟨h.1, h.2⟩
  | message raw =>
    cases hs
    exact h

/-- The invariant holds along every event run. -/
theorem singletonInv_runEvents (evs : List WSEv) (st0 st : WSState)
    (h0 : SingletonInv st0) (h : runEvents st0 evs = some st) : SingletonInv st := by
  induction evs generalizing st0 with
  | nil =>
    simp only [runEvents] at h
    cases h
    exact h0
  | cons e es ih =>
    simp only [runEvents] at h
    cases hs : stepEv st0 e with
    | none => rw [hs] at h; exact Option.noConfusion h
    | some st1 =>
      rw [hs] at h
      exact ih st1 (singletonInv_step st0 st1 e h0 hs) h

/-- A list whose non-final entries all fail the predicate has at most one
element satisfying it. -/
theorem filter_length_le_one {α : Type} (p : α → Bool) (l : List α)
    (h : ∀ i, i + 1 < l.length → (l[i]?).any p = false) :
    (l.filter p).length ≤ 1 := by
  induction l with
  | nil => simp
  | cons a t ih =>
    cases t with
    | nil =>
      by_cases hp : p a
      · simp [List.filter, hp]
      · simp [List.filter, hp]
    | cons b t2 =>
      have ha : p a = false := by
        have h0 := h 0 (by simp)
        simpa using h0
      rw [List.filter_cons_of_neg (by simp [ha])]
      exact ih (fun i hi => by
        have hstep := h (i + 1) (Nat.succ_lt_succ hi)
        simpa using hstep)

/-- On an invariant state at most one socket is live. -/
theorem liveSockets_le_one (st : WSState) (h : SingletonInv st) :
    (liveSockets st).length ≤ 1 :=
  filter_length_le_one isLive st.sockets h.2

/-- C5: the live channel is a process-wide singleton — on every reachable
module state at most one socket is open or connecting; registering a
subscriber while a live socket exists changes no socket, unregistering a
subscriber never touches the sockets, and the connection is created lazily
by the first mount. -/
theorem singleton_live_channel :
    (∀ evs st, runEvents initWSState evs = some st → (liveSockets st).length ≤ 1) ∧
    (∀ st hid ctorOk, (currentSocket st).any isLive = true →
        (mountHook hid ctorOk st).sockets = st.sockets ∧
        (mountHook hid ctorOk st).singletonWs = st.singletonWs) ∧
    (∀ st hid, (unmountHook hid st).sockets = st.sockets ∧
        (unmountHook hid st).singletonWs = st.singletonWs) ∧
    ((mountHook 0 true initWSState).sockets = [ReadyState.CONNECTING] ∧
     (mountHook 0 true initWSState).singletonWs = some 0) := by
  refine ⟨?_, ?_, ?_, by decide⟩
  · intro evs st h
    exact liveSockets_le_one st (singletonInv_runEvents evs initWSState st singletonInv_init h)
  · intro st hid ctorOk hlive
    have hl2 : (currentSocket { st with subscribers := st.subscribers ++ [hid] }).any
        isLive = true := hlive
    have hmt : mountHook hid ctorOk st = { st with subscribers := st.subscribers ++ [hid] } := by
      rw [mountHook, ensureSocket, if_pos hl2]
    rw [hmt]
    exact ⟨rfl, rfl⟩
  · intro st hid
    exact ⟨rfl, rfl⟩

/-- Witness for `singleton_live_channel`: after two hooks mount and the
socket opens, at most one socket is live. -/
theorem singleton_live_channel_witness :
    runEvents initWSState demoTwoHooks = some (mountHook 1 true wsOpenState) ∧
    (liveSockets (mountHook 1 true wsOpenState)).length ≤ 1 :=
  ⟨by decide, singleton_live_channel.1 demoTwoHooks _ (by decide)⟩

/-- A claimer finds nothing in a store with no pending job and leaves the
store unchanged. -/
theorem claimNext_noPending (jobs : List Job) (h : noPending jobs) :
    claimNext jobs = (none, jobs) := by
  induction jobs with
  | nil => rfl
  | cons j rest ih =>
    have hj : ¬j.status = JobStatus.pending := h j (List.mem_cons_self j rest)
    rw [claimNext, if_neg hj, ih (fun x hx => h x (List.mem_cons_of_mem j hx))]

/-- The oldest pending job wins the claim: it flips to running with its
attempt counter bumped, everything else is untouched. -/
theorem claimNext_first_pending (pre post : List Job) (j : Job)
    (hpre : noPending pre) (hj : j.status = JobStatus.pending) :
    claimNext (pre ++ j :: post) =
      (some { j with status := JobStatus.running, attempts := j.attempts + 1 },
       pre ++ { j with status := JobStatus.running, attempts := j.attempts + 1 } :: post) := by
  induction pre with
  | nil =>
    simp only [List.nil_append]
    rw [claimNext, if_pos hj]
  | cons a t ih =>
    have ha : ¬a.status = JobStatus.pending := hpre a (List.mem_cons_self a t)
    simp only [List.cons_append]
    rw [claimNext, if_neg ha, ih (fun x hx => hpre x (List.mem_cons_of_mem a hx))]

/-- Every claimer of a store with no pending job comes away empty. -/
theorem raceClaims_noPending (n : Nat) (jobs : List Job) (h : noPending jobs) :
    raceClaims n jobs = (List.replicate n none, jobs) := by
  induction n with
  | zero => rfl
  | succ m ih =>
    simp only [raceClaims, claimNext_noPending jobs h, ih, List.replicate_succ]

/-- After the pending job is claimed, no pending job remains. -/
theorem noPending_after_claim (pre post : List Job) (j1 : Job)
    (hpre : noPending pre) (hpost : noPending post)
    (hj1 : ¬j1.status = JobStatus.pending) :
    noPending (pre ++ j1 :: post) := by
  intro x hx
  rcases List.mem_append.1 hx with hx1 | hx2
  · exact hpre x hx1
  · rcases List.mem_cons.1 hx2 with rfl | hx3
    · exact hj1
    · exact hpost x hx3

/-- C2: for a store whose only pending job is j, any number N ≥ 1 of
racing claim_next calls (serialized by the claim's atomicity) produce
exactly one winner — the first serialized caller receives j moved to
running with one recorded attempt, every other caller receives none, and
no later claim touches the running job. -/
theorem claim_next_exactly_one_winner (pre post : List Job) (j : Job) (n : Nat)
    (hpre : noPending pre) (hpost : noPending post)
    (hj : j.status = JobStatus.pending) :
    raceClaims (n + 1) (pre ++ j :: post) =
      (some { j with status := JobStatus.running, attempts := j.attempts + 1 }
         :: List.replicate n none,
       pre ++ { j with status := JobStatus.running, attempts := j.attempts + 1 } :: post) := by
  have hnp : noPending
      (pre ++ { j with status := JobStatus.running, attempts := j.attempts + 1 } :: post) :=
    noPending_after_claim pre post _ hpre hpost (by simp)
  simp only [raceClaims, claimNext_first_pending pre post j hpre hj,
    raceClaims_noPending n
      (pre ++ { j with status := JobStatus.running, attempts := j.attempts + 1 } :: post) hnp]

/-- Witness for `claim_next_exactly_one_winner`: three workers race on a
single pending job; the first wins, the others observe none. -/
theorem claim_next_exactly_one_winner_witness :
    raceClaims 3 [Job.mk 1 42 JobStatus.pending 0] =
      (some (Job.mk 1 42 JobStatus.running 1) :: List.replicate 2 none,
       [Job.mk 1 42 JobStatus.running 1]) :=
  claim_next_exactly_one_winner [] [] (Job.mk 1 42 JobStatus.pending 0) 2
    (fun x hx => absurd hx (List.not_mem_nil x))
    (fun x hx => absurd hx (List.not_mem_nil x)) rfl

/-- Replacing the keyed row leaves the rows of every other item alone. -/
theorem filter_map_replace (rows : List GradingRow) (r : GradingRow) (item : Nat)
    (h : ¬item = r.itemId) :
    (rows.map (fun x => if x.itemId = r.itemId then r else x)).filter
        (fun x => x.itemId == item) =
      rows.filter (fun x => x.itemId == item) := by
  have hr : ¬r.itemId = item := fun hh => h hh.symm
  induction rows with
  | nil => rfl
  | cons x t ih =>
    by_cases hx : x.itemId = r.itemId
    · have h3 : ¬x.itemId = item := by rw [hx]; exact hr
      simp only [List.map_cons, if_pos hx, List.filter_cons, beq_iff_eq,
        if_neg hr, if_neg h3]
      exact ih
    · simp only [List.map_cons, if_neg hx, List.filter_cons, beq_iff_eq]
      by_cases hxi : x.itemId = item
      · simp only [if_pos hxi]
        rw [ih]
      · simp only [if_neg hxi]
        exact ih

/-- Replacing over rows none of which carry the key filters to nothing. -/
theorem filter_map_replace_none (t : List GradingRow) (r : GradingRow)
    (ht : ∀ y ∈ t, ¬y.itemId = r.itemId) :
    (t.map (fun y => if y.itemId = r.itemId then r else y)).filter
        (fun x => x.itemId == r.itemId) = [] := by
  induction t with
  | nil => rfl
  | cons y t2 ih =>
    have hy := ht y (List.mem_cons_self y t2)
    simp only [List.map_cons, if_neg hy, List.filter_cons, beq_iff_eq, if_neg hy]
    exact ih (fun z hz => ht z (List.mem_cons_of_mem y hz))

/-- When a keyed row exists and the unique constraint holds, the replace
path leaves exactly the new row under the key. -/
theorem filter_map_replace_self (rows : List GradingRow) (r : GradingRow)
    (hlen : (rows.filter (fun x => x.itemId == r.itemId)).length ≤ 1)
    (hany : rows.any (fun x => x.itemId == r.itemId) = true) :
    (rows.map (fun x => if x.itemId = r.itemId then r else x)).filter
        (fun x => x.itemId == r.itemId) = [r] := by
  induction rows with
  | nil => simp at hany
  | cons x t ih =>
    by_cases hx : x.itemId = r.itemId
    · have hfil : ((x :: t).filter (fun y => y.itemId == r.itemId)) =
          x :: t.filter (fun y => y.itemId == r.itemId) := by
        simp only [List.filter_cons, beq_iff_eq, if_pos hx]
      rw [hfil] at hlen
      have hnil : t.filter (fun y => y.itemId == r.itemId) = [] := by
        cases hcase : t.filter (fun y => y.itemId == r.itemId) with
        | nil => rfl
        | cons z zs =>
          rw [hcase] at hlen
          simp at hlen
      have ht : ∀ y ∈ t, ¬y.itemId = r.itemId := by
        intro y hy hyk
        have hmem : y ∈ t.filter (fun z => z.itemId == r.itemId) :=
          List.mem_filter.2 ⟨hy, by simp [beq_iff_eq, hyk]⟩
        rw [hnil] at hmem
        exact absurd hmem (List.not_mem_nil y)
      simp only [List.map_cons, if_pos hx, List.filter_cons, beq_iff_eq, if_pos rfl]
      rw [filter_map_replace_none t r ht]
      simp
    · have hany2 : t.any (fun y => y.itemId == r.itemId) = true := by
        rcases List.any_eq_true.1 hany with ⟨z, hz, hzk⟩
        rcases List.mem_cons.1 hz with rfl | hz2
        · exact absurd (beq_iff_eq.1 hzk) hx
        · exact List.any_eq_true.2 ⟨z, hz2, hzk⟩
      have hlen2 : (t.filter (fun y => y.itemId == r.itemId)).length ≤ 1 := by
        simp only [List.filter_cons, beq_iff_eq, if_neg hx] at hlen
        exact hlen
      simp only [List.map_cons, if_neg hx, List.filter_cons, beq_iff_eq, if_neg hx]
      exact ih hlen2 hany2

/-- Upserting never touches rows of other items. -/
theorem rowsFor_upsertRow_other (rows : List GradingRow) (r : GradingRow) (item : Nat)
    (h : ¬item = r.itemId) :
    rowsFor item (upsertRow rows r) = rowsFor item rows := by
  unfold upsertRow
  split_ifs with hany
  · exact filter_map_replace rows r item h
  · unfold rowsFor
    rw [List.filter_append]
    have hr : ¬r.itemId = item := fun hh => h hh.symm
    have h1 : List.filter (fun x => x.itemId == item) [r] = [] := by
      simp only [List.filter_cons, beq_iff_eq, if_neg hr]
      rfl
    rw [h1, List.append_nil]

/-- Under the unique constraint an upsert leaves exactly one row — the
upserted one — for its item. -/
theorem rowsFor_upsertRow_self (rows : List GradingRow) (r : GradingRow)
    (hw : UniqueKeys rows) :
    rowsFor r.itemId (upsertRow rows r) = [r] := by
  unfold upsertRow
  split_ifs with hany
  · exact filter_map_replace_self rows r (hw r.itemId) hany
  · unfold rowsFor
    rw [List.filter_append]
    have h0 : rows.filter (fun x => x.itemId == r.itemId) = [] := by
      cases hcase : rows.filter (fun x => x.itemId == r.itemId) with
      | nil => rfl
      | cons z zs =>
        have hz : z ∈ rows.filter (fun x => x.itemId == r.itemId) := by
          rw [hcase]; exact List.mem_cons_self z zs
        have hzf := List.mem_filter.1 hz
        exact absurd (List.any_eq_true.2 ⟨z, hzf.1, hzf.2⟩) hany
    rw [h0, List.nil_append]
    simp only [List.filter_cons, beq_iff_eq, if_pos rfl]
    rfl

/-- Upserting preserves the unique constraint: it never creates a
duplicate row. -/
theorem uniqueKeys_upsertRow (rows : List GradingRow) (r : GradingRow)
    (hw : UniqueKeys rows) : UniqueKeys (upsertRow rows r) := by
  intro item
  by_cases hit : item = r.itemId
  · rw [hit, rowsFor_upsertRow_self rows r hw]
    simp
  · rw [rowsFor_upsertRow_other rows r item hit]
    exact hw item

/-- C1: a successful GRADE_ITEM/REGRADE job upserts the single
GradingResult row for its item and never creates a duplicate: starting
from any store satisfying the unique constraint, one success leaves
exactly one row for the item, two successes for the same item — in either
order — leave exactly one row equal to whichever was persisted last, and
the constraint is preserved. -/
theorem grading_result_upsert_idempotent (rows : List GradingRow)
    (r1 r2 : GradingRow) (hw : UniqueKeys rows) (hitem : r1.itemId = r2.itemId) :
    UniqueKeys (upsertRow rows r1) ∧
    rowsFor r1.itemId (upsertRow rows r1) = [r1] ∧
    rowsFor r1.itemId (upsertRow (upsertRow rows r1) r2) = [r2] ∧
    rowsFor r1.itemId (upsertRow (upsertRow rows r2) r1) = [r1] := by
  refine ⟨uniqueKeys_upsertRow rows r1 hw, rowsFor_upsertRow_self rows r1 hw, ?_, ?_⟩
  · rw [hitem]
    exact rowsFor_upsertRow_self _ r2 (uniqueKeys_upsertRow rows r1 hw)
  · exact rowsFor_upsertRow_self _ r1 (uniqueKeys_upsertRow rows r2 hw)

/-- Witness for `grading_result_upsert_idempotent`: grade then regrade of
item 42 in both completion orders. -/
theorem grading_result_upsert_idempotent_witness :
    UniqueKeys (upsertRow [] (GradingRow.mk 42 true 1)) ∧
    rowsFor 42 (upsertRow [] (GradingRow.mk 42 true 1)) = [GradingRow.mk 42 true 1] ∧
    rowsFor 42 (upsertRow (upsertRow [] (GradingRow.mk 42 true 1))
      (GradingRow.mk 42 false 2)) = [GradingRow.mk 42 false 2] ∧
    rowsFor 42 (upsertRow (upsertRow [] (GradingRow.mk 42 false 2))
      (GradingRow.mk 42 true 1)) = [GradingRow.mk 42 true 1] :=
  grading_result_upsert_idempotent [] (GradingRow.mk 42 true 1) (GradingRow.mk 42 false 2)
    (fun item => by simp [rowsFor]) rfl

end Wizzdomm
